import Mathlib

/-!
# Segment mixer of the AI radio station front end

Shallow embedding of the segment mixer of `frontend/src/App.js`: the component
state (`segments`, `lockedSegments`, `dragInfo.current`), the listeners registered on
`document`, and the four handlers `handleDoubleClick`, `handleMouseDown`,
`handleMouseMove`, `handleMouseUp`.

Modelling decisions.
* JavaScript numbers are rationals: arithmetic is exact.  The values a rational
  cannot hold (`undefined`, `NaN`, `±Infinity`) are tracked where the code can
  produce them: `segments[name]` of an absent name is `none`, and the proposed
  width of `handleMouseMove` is `none` when it is `NaN`.
* `segments` is an association list in insertion order (a JavaScript object);
  a well-formed object has pairwise distinct keys (`WF`).
* `lockedSegments` is a finite set of names; only `has`, `add` and `delete`
  are ever used on it.
* The handlers are closures of the render that created them.  `handleDoubleClick`
  uses a functional updater and `handleMouseDown` is rebound at every render, so both
  work on the current state.  `handleMouseMove` and `handleMouseUp` are registered on
  `document` by `handleMouseDown` and stay registered until mouse-up: they keep the
  `segments` and `lockedSegments` of the render in which the mouse went down (`Render`),
  while `dragInfo` is a ref and is always read live.  A state therefore carries the
  list of registered listener pairs, and a mouse-move or mouse-up event runs each of
  them in registration order.
* Registering the same function twice is a no-op in the browser; here it gives two
  equal adjacent entries, which compute the same mapping one after the other, so the
  state after an event is the same.
-/

namespace RadioMixer

/-! ## Data model -/

/-- A JavaScript object from segment names to percentages, in insertion order. -/
abbrev Segments := List (String × ℚ)

/-- The list `Object.keys(m)`. -/
def keys (m : Segments) : List String := m.map Prod.fst

/-- The list `Object.values(m)`. -/
def values (m : Segments) : List ℚ := m.map Prod.snd

/-- The property read `m[k]`; `none` stands for `undefined`. -/
def get (m : Segments) (k : String) : Option ℚ := m.lookup k

/-- The property write `m[k] = v`: an existing key keeps its place, a new key is appended. -/
def assign (m : Segments) (k : String) (v : ℚ) : Segments :=
  if k ∈ keys m then m.map (fun e => if e.1 = k then (e.1, v) else e) else m ++ [(k, v)]

/-- The fold `Object.values(m).reduce((a, b) => a + b, 0)`. -/
def total (m : Segments) : ℚ := (values m).foldl (fun a b => a + b) 0

/-- The record held in `dragInfo.current`.  `segmentType` is `none` for `null`;
`initialWidth` and `containerWidth` are `none` for `undefined`. -/
structure DragInfo where
  isDragging : Bool
  startX : ℚ
  segmentType : Option String
  initialWidth : Option ℚ
  containerWidth : Option ℚ
deriving DecidableEq

/-- The state variables of one render, as the handlers created in that render see them. -/
structure Render where
  segments : Segments
  lockedSegments : Finset String
deriving DecidableEq

/-- The state of the mixer: the `segments` and `lockedSegments` React states, the
`dragInfo` ref, and the `handleMouseMove` / `handleMouseUp` pairs registered on
`document`, each given by the render that created it, in registration order. -/
structure State where
  segments : Segments
  lockedSegments : Finset String
  dragInfo : DragInfo
  listeners : List Render
deriving DecidableEq

/-- The variables that the handlers of the current render close over. -/
def State.render (st : State) : Render :=
  { segments := st.segments, lockedSegments := st.lockedSegments }

/-- The state the component starts in (`useState` / `useRef` initial values, nothing
registered on `document`). -/
def initialState : State where
  segments := [("cold_open", 10), ("topic", 50), ("banter", 15), ("ad", 10), ("outro", 15)]
  lockedSegments := ∅
  dragInfo :=
    { isDragging := false, startX := 0, segmentType := none, initialWidth := some 0,
      containerWidth := none }
  listeners := []

/-- A well-formed state: the keys of the `segments` object are pairwise distinct. -/
def WF (st : State) : Prop := (keys st.segments).Nodup

/-! ## Handlers -/

/-- The handler `handleDoubleClick(type)`: toggle the lock of `type` in the current lock
set (functional updater). -/
def handleDoubleClick (st : State) (type : String) : State :=
  { st with
    lockedSegments :=
      if type ∈ st.lockedSegments then st.lockedSegments.erase type
      else insert type st.lockedSegments }

/-- The handler `handleMouseDown(e, segmentType)` of the current render, with
`e.clientX = clientX` and a container of width `rectWidth`: unless the segment is locked,
it fills `dragInfo.current` and registers this render's `handleMouseMove` and
`handleMouseUp` on `document`. -/
def handleMouseDown (st : State) (clientX : ℚ) (segmentType : String) (rectWidth : ℚ) :
    State :=
  if segmentType ∈ st.lockedSegments then st
  else
    { st with
      dragInfo :=
        { isDragging := true
          startX := clientX
          segmentType := some segmentType
          initialWidth := get st.segments segmentType
          containerWidth := some rectWidth }
      listeners := st.listeners ++ [st.render] }

/-- The value `newWidth` of `handleMouseMove`:
`Math.max(5, Math.min(70, initialWidth + deltaX / containerWidth * 100))`.
It is `none` when the JavaScript value is `NaN`: an `undefined` operand, or `0 / 0`.
A non-zero `deltaX` over a zero width is `±Infinity`, which the clamps bring to 70 or 5. -/
def proposedWidth (d : DragInfo) (clientX : ℚ) : Option ℚ :=
  match d.initialWidth, d.containerWidth with
  | some initialWidth, some containerWidth =>
    let deltaX := clientX - d.startX
    if containerWidth = 0 then
      if deltaX = 0 then none else if 0 < deltaX then some 70 else some 5
    else
      let deltaPercentage := deltaX / containerWidth * 100
      some (max 5 (min 70 (initialWidth + deltaPercentage)))
  | _, _ => none

/-- The list `adjustableSegments` of `handleMouseMove`: the keys that are neither the
dragged segment nor locked, in the variables of the handler's render. -/
def adjustableSegments (r : Render) (dragged : String) : List String :=
  (keys r.segments).filter (fun key => decide (key ≠ dragged) && decide (key ∉ r.lockedSegments))

/-- The object `newSegments` that the `handleMouseMove` of render `r` builds, with
`dragInfo.current = di`, before it looks at the total.  `none` when the handler returns
before building it (no drag in progress, or nothing adjustable) and when the numbers
involved are `NaN` (the total is then `NaN` and the comparison with the tolerance
fails). -/
def tentative (r : Render) (di : DragInfo) (clientX : ℚ) : Option Segments :=
  if di.isDragging = false then none
  else
    match di.segmentType with
    | none => none
    | some dragged =>
      match proposedWidth di clientX, get r.segments dragged with
      | some newWidth, some oldWidth =>
        let difference := newWidth - oldWidth
        let adjustable := adjustableSegments r dragged
        if adjustable.length = 0 then none
        else
          let adjustment := -difference / (adjustable.length : ℚ)
          let newSegments :=
            adjustable.foldl
              (fun acc key => assign acc key (max 5 ((get r.segments key).getD 0 + adjustment)))
              r.segments
          some (assign newSegments dragged newWidth)
      | _, _ => none

/-- The handler `handleMouseMove(e)` of render `r` with `e.clientX = clientX` and
`dragInfo.current = di`: the argument of its `setSegments` call, `none` when it makes
none. -/
def handleMouseMove (r : Render) (di : DragInfo) (clientX : ℚ) : Option Segments :=
  match tentative r di clientX with
  | none => none
  | some newSegments =>
    if |total newSegments - 100| < 1 / 10 then some newSegments else none

/-- One registered `handleMouseMove` run on the state: a `setSegments` call replaces the
mapping, anything else is left alone. -/
def runListener (clientX : ℚ) (st : State) (r : Render) : State :=
  match handleMouseMove r st.dragInfo clientX with
  | none => st
  | some newSegments => { st with segments := newSegments }

/-- A mouse-move event on `document` at `clientX`: every registered `handleMouseMove`
runs, in registration order; the last `setSegments` call decides the mapping. -/
def mouseMove (st : State) (clientX : ℚ) : State :=
  st.listeners.foldl (runListener clientX) st

/-- The handler `handleMouseUp()` of render `r`: clears `isDragging` and removes its own
pair of listeners. -/
def handleMouseUp (st : State) (r : Render) : State :=
  { st with
    dragInfo := { st.dragInfo with isDragging := false }
    listeners := st.listeners.erase r }

/-- A mouse-up event on `document`: every registered `handleMouseUp` runs. -/
def mouseUp (st : State) : State :=
  st.listeners.foldl handleMouseUp st

/-! ## Runs -/

/-- The operations of the mixer, named as in the specification. -/
inductive Op where
  | toggleLock (name : String)
  | beginDrag (name : String) (pointerX : ℚ) (containerWidth : ℚ)
  | updateDrag (pointerX : ℚ)
  | endDrag
deriving DecidableEq

/-- One operation applied to a state: a double click, a mouse-down on a segment, a
mouse-move event, a mouse-up event. -/
def step (st : State) : Op → State
  | .toggleLock name => handleDoubleClick st name
  | .beginDrag name pointerX containerWidth => handleMouseDown st pointerX name containerWidth
  | .updateDrag pointerX => mouseMove st pointerX
  | .endDrag => mouseUp st

/-- A finite sequence of operations applied from left to right. -/
def run (st : State) (ops : List Op) : State := ops.foldl step st

/-! ## Definitions used to state the properties -/

/-- What `handleMouseMove` does to one entry of a well-formed `segments` object: the
dragged segment takes `newWidth`, a locked one is kept, any other is shifted by
`adjustment` and clamped from below at 5. -/
def spread (locked : Finset String) (dragged : String) (newWidth adjustment : ℚ)
    (e : String × ℚ) : String × ℚ :=
  if e.1 = dragged then (e.1, newWidth)
  else if e.1 ∈ locked then e
  else (e.1, max 5 (e.2 + adjustment))

/-- The entries of the segments that are neither dragged nor locked. -/
def eligible (m : Segments) (locked : Finset String) (dragged : String) : Segments :=
  m.filter (fun e => decide (e.1 ≠ dragged) && decide (e.1 ∉ locked))

/-- The amount by which the lower clamp at 5 raises each eligible segment, summed:
the sum over the eligible segments `k` of `max(0, 5 - (s[k] + adjustment))`. -/
def clampExcess (m : Segments) (locked : Finset String) (dragged : String)
    (adjustment : ℚ) : ℚ :=
  ((eligible m locked dragged).map (fun e => max 0 (5 - (e.2 + adjustment)))).sum

/-- A run that empties every segment but topic into topic, one locked neighbour at a time,
and then starts a drag of topic. -/
def squeezeRun : List Op :=
  [.beginDrag "cold_open" 0 100, .updateDrag (-5), .endDrag, .toggleLock "cold_open",
   .beginDrag "banter" 0 100, .updateDrag (-20), .endDrag, .toggleLock "banter",
   .beginDrag "ad" 0 100, .updateDrag (-20), .endDrag, .toggleLock "ad",
   .beginDrag "outro" 0 100, .updateDrag (-100), .endDrag,
   .beginDrag "topic" 0 100]

/-- The second half of the bounds claim on one state: while a drag is in progress the
dragged segment is at most 70. -/
def DraggedAtMost70 (st : State) : Prop :=
  ∀ d v, st.dragInfo.isDragging = true → st.dragInfo.segmentType = some d →
    get st.segments d = some v → v ≤ 70

/-- Every percentage of the mapping is at least 5. -/
def AllAtLeast5 (m : Segments) : Prop := ∀ e ∈ m, 5 ≤ e.2

/-- What every reachable state satisfies: the current mapping and every mapping held by
a registered listener have distinct keys and no percentage below 5. -/
def Sound (st : State) : Prop :=
  WF st ∧ AllAtLeast5 st.segments ∧
    ∀ r ∈ st.listeners, (keys r.segments).Nodup ∧ AllAtLeast5 r.segments

/-! ## The mapping built by `handleMouseMove` -/

theorem total_eq_sum (m : Segments) : total m = (values m).sum := by
  unfold total
  rw [List.sum_eq_foldr, List.foldl_eq_foldr]

theorem keys_map_of_fst (f : String × ℚ → String × ℚ) (hf : ∀ e, (f e).1 = e.1)
    (m : Segments) : keys (m.map f) = keys m := by
  unfold keys
  rw [List.map_map]
  exact List.map_congr_left (fun e _ => hf e)

theorem assign_of_mem {m : Segments} {k : String} (v : ℚ) (hk : k ∈ keys m) :
    assign m k v = m.map (fun e => if e.1 = k then (e.1, v) else e) := by
  unfold assign
  rw [if_pos hk]

theorem keys_assign_of_mem {m : Segments} {k : String} (v : ℚ) (hk : k ∈ keys m) :
    keys (assign m k v) = keys m := by
  rw [assign_of_mem v hk]
  apply keys_map_of_fst
  intro e
  by_cases h : e.1 = k <;> simp [h]

theorem mem_keys_of_get {m : Segments} {k : String} {v : ℚ} (h : get m k = some v) :
    k ∈ keys m := by
  induction m with
  | nil => simp [get] at h
  | cons e m ih =>
    obtain ⟨a, b⟩ := e
    by_cases hk : k = a
    · simp [keys, hk]
    · have hb : (k == a) = false := by simpa using hk
      have : get m k = some v := by
        simpa [get, List.lookup_cons, hb] using h
      have := ih this
      simp only [keys, List.map_cons, List.mem_cons] at this ⊢
      exact Or.inr this

theorem get_of_mem_of_nodup {m : Segments} (hm : (keys m).Nodup) {e : String × ℚ}
    (he : e ∈ m) : get m e.1 = some e.2 := by
  induction m with
  | nil => simp at he
  | cons a m ih =>
    obtain ⟨a1, a2⟩ := a
    simp only [keys, List.map_cons, List.nodup_cons] at hm
    rcases List.mem_cons.mp he with h | h
    · subst h
      simp [get, List.lookup_cons]
    · have hne : e.1 ≠ a1 := by
        intro hEq
        apply hm.1
        rw [← hEq]
        exact List.mem_map_of_mem Prod.fst h
      have hb : (e.1 == a1) = false := by simpa using hne
      have := ih hm.2 h
      simpa [get, List.lookup_cons, hb] using this

/-- The `forEach` loop of `handleMouseMove` as one pass over the entries. -/
theorem foldl_assign (g : String → ℚ) (ks : List String) :
    ∀ acc : Segments, (∀ k ∈ ks, k ∈ keys acc) →
      ks.foldl (fun acc key => assign acc key (g key)) acc
        = acc.map (fun e => if e.1 ∈ ks then (e.1, g e.1) else e) := by
  induction ks with
  | nil => intro acc _; simp
  | cons k ks ih =>
    intro acc hks
    have hk : k ∈ keys acc := hks k (List.mem_cons_self _ _)
    rw [List.foldl_cons, ih]
    · rw [assign_of_mem _ hk, List.map_map]
      apply List.map_congr_left
      intro e _
      by_cases h1 : e.1 = k
      · by_cases h2 : e.1 ∈ ks <;> simp [h1, h2]
      · by_cases h2 : e.1 ∈ ks <;> simp [h1, h2]
    · intro k' hk'
      rw [keys_assign_of_mem _ hk]
      exact hks k' (List.mem_cons_of_mem _ hk')

/-! ## Sums -/

theorem max_five_eq (y : ℚ) : max 5 y = y + max 0 (5 - y) := by
  rcases le_total y 5 with h | h
  · rw [max_eq_left h, max_eq_right (by linarith)]; ring
  · rw [max_eq_right h, max_eq_left (by linarith)]; ring

theorem sum_spread_of_not_mem (L : Finset String) (d : String) (nw adj : ℚ) :
    ∀ m : Segments, d ∉ keys m →
      (values (m.map (spread L d nw adj))).sum
        = (values m).sum + ((eligible m L d).length : ℚ) * adj + clampExcess m L d adj := by
  intro m
  induction m with
  | nil => intro _; simp [values, eligible, clampExcess]
  | cons e m ih =>
    intro hd
    obtain ⟨a, b⟩ := e
    simp only [keys, List.map_cons, List.mem_cons, not_or] at hd
    have ih := ih hd.2
    have had : a ≠ d := fun h => hd.1 h.symm
    simp only [values, clampExcess, eligible] at ih ⊢
    by_cases hL : a ∈ L
    · simp [spread, had, hL, List.filter_cons] at ih ⊢
      rw [ih]; ring
    · simp [spread, had, hL, List.filter_cons] at ih ⊢
      rw [ih, max_five_eq]; ring

theorem sum_spread_of_get (L : Finset String) (d : String) (nw adj old : ℚ) :
    ∀ m : Segments, (keys m).Nodup → get m d = some old →
      (values (m.map (spread L d nw adj))).sum
        = (values m).sum - old + nw + ((eligible m L d).length : ℚ) * adj
          + clampExcess m L d adj := by
  intro m
  induction m with
  | nil => intro _ h; simp [get] at h
  | cons e m ih =>
    intro hnd hget
    obtain ⟨a, b⟩ := e
    simp only [keys, List.map_cons, List.nodup_cons] at hnd
    by_cases had : a = d
    · subst had
      have hb : b = old := by simpa [get, List.lookup_cons] using hget
      have htail := sum_spread_of_not_mem L a nw adj m hnd.1
      simp only [values, clampExcess, eligible] at htail ⊢
      simp [spread, List.filter_cons] at htail ⊢
      rw [htail, hb]; ring
    · have hbeq : (d == a) = false := by simpa using fun h : d = a => had h.symm
      have hget' : get m d = some old := by
        simpa [get, List.lookup_cons, hbeq] using hget
      have ih := ih hnd.2 hget'
      simp only [values, clampExcess, eligible] at ih ⊢
      by_cases hL : a ∈ L
      · simp [spread, had, hL, List.filter_cons] at ih ⊢
        rw [ih]; ring
      · simp [spread, had, hL, List.filter_cons] at ih ⊢
        rw [ih, max_five_eq]; ring

theorem clampExcess_nonneg (m : Segments) (L : Finset String) (d : String) (adj : ℚ) :
    0 ≤ clampExcess m L d adj := by
  unfold clampExcess
  apply List.sum_nonneg
  intro x hx
  obtain ⟨e, _, rfl⟩ := List.mem_map.mp hx
  exact le_max_left _ _

theorem clampExcess_eq_zero_iff (m : Segments) (L : Finset String) (d : String) (adj : ℚ) :
    clampExcess m L d adj = 0 ↔ ∀ e ∈ eligible m L d, 5 ≤ e.2 + adj := by
  unfold clampExcess
  generalize eligible m L d = l
  induction l with
  | nil => simp
  | cons e l ih =>
    have h1 : 0 ≤ max 0 (5 - (e.2 + adj)) := le_max_left _ _
    have h2 : 0 ≤ (l.map (fun e => max 0 (5 - (e.2 + adj)))).sum := by
      apply List.sum_nonneg
      intro x hx
      obtain ⟨e, _, rfl⟩ := List.mem_map.mp hx
      exact le_max_left _ _
    simp only [List.map_cons, List.sum_cons, List.mem_cons, forall_eq_or_imp]
    rw [← ih]
    constructor
    · intro h
      have h3 : max 0 (5 - (e.2 + adj)) = 0 := by linarith
      have h4 : 5 - (e.2 + adj) ≤ 0 := by
        have := le_max_right 0 (5 - (e.2 + adj))
        linarith
      exact ⟨by linarith, by linarith⟩
    · rintro ⟨h3, h4⟩
      rw [h4, max_eq_left (by linarith)]; ring

theorem proposedWidth_bounds {di : DragInfo} {x nw : ℚ} (h : proposedWidth di x = some nw) :
    5 ≤ nw ∧ nw ≤ 70 := by
  unfold proposedWidth at h
  split at h
  · split at h
    · dsimp only at h
      split at h
      · exact absurd h (by simp)
      · split at h <;>
          · have := Option.some.inj h
            subst this
            constructor <;> norm_num
    · have := Option.some.inj h
      subst this
      exact ⟨le_max_left _ _, max_le (by norm_num) (min_le_left _ _)⟩
  · exact absurd h (by simp)

theorem proposedWidth_eq {di : DragInfo} {b w : ℚ} (hb : di.initialWidth = some b)
    (hw : di.containerWidth = some w) (hw0 : w ≠ 0) (x : ℚ) :
    proposedWidth di x = some (max 5 (min 70 (b + (x - di.startX) / w * 100))) := by
  unfold proposedWidth
  simp [hb, hw, hw0]

theorem get_map_of_fst (f : String × ℚ → String × ℚ) (hf : ∀ e, (f e).1 = e.1)
    (m : Segments) (k : String) :
    get (m.map f) k = (get m k).map (fun v => (f (k, v)).2) := by
  induction m with
  | nil => simp [get]
  | cons e m ih =>
    obtain ⟨a, b⟩ := e
    have hfa : f (a, b) = (a, (f (a, b)).2) := by
      have := hf (a, b)
      exact Prod.ext this rfl
    by_cases hk : k = a
    · subst hk
      simp only [get, List.map_cons] at ih ⊢
      rw [hfa]
      simp [List.lookup_cons]
    · have hb : (k == a) = false := by simpa using hk
      simp only [get, List.map_cons] at ih ⊢
      rw [hfa]
      simp only [List.lookup_cons, hb]
      exact ih

theorem spread_fst (L : Finset String) (d : String) (nw adj : ℚ) (e : String × ℚ) :
    (spread L d nw adj e).1 = e.1 := by
  unfold spread
  split
  · rfl
  · split <;> rfl

theorem get_spread (L : Finset String) (d : String) (nw adj : ℚ) (m : Segments) (k : String) :
    get (m.map (spread L d nw adj)) k = (get m k).map (fun v => (spread L d nw adj (k, v)).2) :=
  get_map_of_fst _ (spread_fst L d nw adj) m k

theorem keys_spread (L : Finset String) (d : String) (nw adj : ℚ) (m : Segments) :
    keys (m.map (spread L d nw adj)) = keys m :=
  keys_map_of_fst _ (spread_fst L d nw adj) m

theorem mem_eligible {m : Segments} {L : Finset String} {d : String} {e : String × ℚ} :
    e ∈ eligible m L d ↔ e ∈ m ∧ e.1 ≠ d ∧ e.1 ∉ L := by
  simp [eligible]

/-! ## The handler `handleMouseMove` of one render -/

theorem mem_adjustableSegments {r : Render} {d k : String} :
    k ∈ adjustableSegments r d ↔ k ∈ keys r.segments ∧ k ≠ d ∧ k ∉ r.lockedSegments := by
  simp [adjustableSegments]

theorem keys_eligible (r : Render) (d : String) :
    keys (eligible r.segments r.lockedSegments d) = adjustableSegments r d := by
  unfold keys eligible adjustableSegments keys
  rw [List.filter_map]
  rfl

theorem length_eligible (r : Render) (d : String) :
    (eligible r.segments r.lockedSegments d).length = (adjustableSegments r d).length := by
  rw [← keys_eligible, keys, List.length_map]

theorem mem_adjustable_of_mem_eligible {r : Render} {d : String} {e : String × ℚ}
    (he : e ∈ eligible r.segments r.lockedSegments d) : e.1 ∈ adjustableSegments r d := by
  obtain ⟨hm, h1, h2⟩ := mem_eligible.mp he
  exact mem_adjustableSegments.mpr ⟨List.mem_map_of_mem Prod.fst hm, h1, h2⟩

/-- The object `newSegments` of `handleMouseMove` on a well-formed mapping, entry by
entry. -/
theorem tentative_eq {r : Render} (hwf : (keys r.segments).Nodup) {di : DragInfo}
    {d : String} {x newWidth oldWidth : ℚ}
    (hdrag : di.isDragging = true) (hd : di.segmentType = some d)
    (hnw : proposedWidth di x = some newWidth)
    (hold : get r.segments d = some oldWidth)
    (hn : (adjustableSegments r d).length ≠ 0) :
    tentative r di x = some (r.segments.map (spread r.lockedSegments d newWidth
      (-(newWidth - oldWidth) / ((adjustableSegments r d).length : ℚ)))) := by
  have hdk : d ∈ keys r.segments := mem_keys_of_get hold
  unfold tentative
  simp only [hdrag, hd, hnw, hold, hn, if_false, Bool.true_eq_false]
  rw [foldl_assign _ _ _ (fun k hk => (mem_adjustableSegments.mp hk).1)]
  rw [assign_of_mem _ (by rw [keys_map_of_fst]; exact hdk; intro e; by_cases h : e.1 ∈ adjustableSegments r d <;> simp [h]), List.map_map]
  congr 1
  apply List.map_congr_left
  intro e he
  have hget := get_of_mem_of_nodup hwf he
  have hek : e.1 ∈ keys r.segments := List.mem_map_of_mem Prod.fst he
  unfold spread
  have hdn : d ∉ adjustableSegments r d := fun h => (mem_adjustableSegments.mp h).2.1 rfl
  by_cases h1 : e.1 = d
  · simp [h1, hdn]
  · by_cases h3 : e.1 ∈ r.lockedSegments
    · have h2 : e.1 ∉ adjustableSegments r d := fun h => (mem_adjustableSegments.mp h).2.2 h3
      simp [h1, h2, h3]
    · have h2 : e.1 ∈ adjustableSegments r d := mem_adjustableSegments.mpr ⟨hek, h1, h3⟩
      simp [h1, h2, h3, hget]

/-- The total of the mapping built by `handleMouseMove` on a well-formed mapping. -/
theorem total_spread {r : Render} (hwf : (keys r.segments).Nodup) {d : String} (nw : ℚ)
    {old : ℚ} (hold : get r.segments d = some old)
    (hn : (adjustableSegments r d).length ≠ 0) :
    total (r.segments.map (spread r.lockedSegments d nw
        (-(nw - old) / ((adjustableSegments r d).length : ℚ))))
      = total r.segments
        + clampExcess r.segments r.lockedSegments d
            (-(nw - old) / ((adjustableSegments r d).length : ℚ)) := by
  rw [total_eq_sum, total_eq_sum, sum_spread_of_get _ _ _ _ old _ hwf hold, length_eligible]
  have hn' : ((adjustableSegments r d).length : ℚ) ≠ 0 := by exact_mod_cast hn
  field_simp

/-- What is known when `handleMouseMove` gets as far as building `newSegments`. -/
theorem tentative_some {r : Render} {di : DragInfo} {x : ℚ} {t : Segments}
    (h : tentative r di x = some t) :
    di.isDragging = true ∧
      ∃ d nw old, di.segmentType = some d ∧ proposedWidth di x = some nw ∧
        get r.segments d = some old ∧ (adjustableSegments r d).length ≠ 0 := by
  unfold tentative at h
  split at h
  · exact absurd h (by simp)
  · rename_i hdrag
    split at h
    · exact absurd h (by simp)
    · rename_i d hd
      split at h
      · rename_i nw old hnw hold
        dsimp only at h
        split at h
        · exact absurd h (by simp)
        · rename_i hn
          exact ⟨by simpa using hdrag, d, nw, old, hd, hnw, hold, hn⟩
      · exact absurd h (by simp)

/-- A `setSegments` call of `handleMouseMove` passes the mapping it built, and that
mapping passed the tolerance test. -/
theorem handleMouseMove_some {r : Render} {di : DragInfo} {x : ℚ} {m : Segments}
    (h : handleMouseMove r di x = some m) :
    tentative r di x = some m ∧ |total m - 100| < 1 / 10 := by
  unfold handleMouseMove at h
  cases ht : tentative r di x with
  | none => rw [ht] at h; exact absurd h (by simp)
  | some t =>
    rw [ht] at h
    by_cases hc : |total t - 100| < 1 / 10
    · simp only [if_pos hc] at h
      have := Option.some.inj h
      subst this
      exact ⟨rfl, hc⟩
    · simp only [if_neg hc] at h
      exact absurd h (by simp)

theorem handleMouseMove_commit {r : Render} {di : DragInfo} {x : ℚ} {t : Segments}
    (ht : tentative r di x = some t) (htot : |total t - 100| < 1 / 10) :
    handleMouseMove r di x = some t := by
  unfold handleMouseMove
  rw [ht]
  simp only [if_pos htot]

/-- On a well-formed mapping, a `setSegments` call of `handleMouseMove` passes a `spread`
of the entries the handler holds. -/
theorem handleMouseMove_some_wf {r : Render} (hwf : (keys r.segments).Nodup)
    {di : DragInfo} {x : ℚ} {m : Segments} (h : handleMouseMove r di x = some m) :
    ∃ d nw old, di.isDragging = true ∧ di.segmentType = some d ∧
      proposedWidth di x = some nw ∧ get r.segments d = some old ∧
      (adjustableSegments r d).length ≠ 0 ∧ |total m - 100| < 1 / 10 ∧
      m = r.segments.map (spread r.lockedSegments d nw
        (-(nw - old) / ((adjustableSegments r d).length : ℚ))) := by
  obtain ⟨ht, htot⟩ := handleMouseMove_some h
  obtain ⟨hdrag, d, nw, old, hd, hnw, hold, hn⟩ := tentative_some ht
  have heq := tentative_eq hwf hdrag hd hnw hold hn
  rw [heq] at ht
  exact ⟨d, nw, old, hdrag, hd, hnw, hold, hn, htot, (Option.some.inj ht).symm⟩

/-! ## Events -/

theorem handleMouseDown_segments (st : State) (x : ℚ) (name : String) (w : ℚ) :
    (handleMouseDown st x name w).segments = st.segments := by
  unfold handleMouseDown
  split <;> rfl

theorem handleMouseDown_lockedSegments (st : State) (x : ℚ) (name : String) (w : ℚ) :
    (handleMouseDown st x name w).lockedSegments = st.lockedSegments := by
  unfold handleMouseDown
  split <;> rfl

theorem runListener_cases (x : ℚ) (s : State) (r : Render) :
    (runListener x s r = s ∧ handleMouseMove r s.dragInfo x = none) ∨
      ∃ m, handleMouseMove r s.dragInfo x = some m ∧
        runListener x s r = { s with segments := m } := by
  unfold runListener
  cases h : handleMouseMove r s.dragInfo x with
  | none => exact Or.inl ⟨rfl, rfl⟩
  | some m => exact Or.inr ⟨m, rfl, rfl⟩

/-- A mouse-move event writes nothing but the mapping, and the mapping it leaves is the one
it found or one passed to `setSegments` by a registered listener. -/
theorem foldl_runListener (x : ℚ) (ls : List Render) :
    ∀ s : State,
      (ls.foldl (runListener x) s).lockedSegments = s.lockedSegments ∧
      (ls.foldl (runListener x) s).dragInfo = s.dragInfo ∧
      (ls.foldl (runListener x) s).listeners = s.listeners ∧
      ((ls.foldl (runListener x) s).segments = s.segments ∨
        ∃ r ∈ ls, ∃ m, handleMouseMove r s.dragInfo x = some m ∧
          (ls.foldl (runListener x) s).segments = m) := by
  induction ls with
  | nil => intro s; exact ⟨rfl, rfl, rfl, Or.inl rfl⟩
  | cons r ls ih =>
    intro s
    rw [List.foldl_cons]
    obtain ⟨h1, h2, h3, h4⟩ := ih (runListener x s r)
    rcases runListener_cases x s r with ⟨hs, _⟩ | ⟨m, hm, hs⟩
    · rw [hs] at h1 h2 h3 h4 ⊢
      refine ⟨h1, h2, h3, ?_⟩
      rcases h4 with h4 | ⟨r', hr', m', hm', h4⟩
      · exact Or.inl h4
      · exact Or.inr ⟨r', List.mem_cons_of_mem _ hr', m', hm', h4⟩
    · rw [hs] at h1 h2 h3 h4 ⊢
      refine ⟨h1, h2, h3, Or.inr ?_⟩
      rcases h4 with h4 | ⟨r', hr', m', hm', h4⟩
      · exact ⟨r, List.mem_cons_self _ _, m, hm, h4⟩
      · exact ⟨r', List.mem_cons_of_mem _ hr', m', hm', h4⟩

theorem mouseMove_lockedSegments (st : State) (x : ℚ) :
    (mouseMove st x).lockedSegments = st.lockedSegments :=
  (foldl_runListener x st.listeners st).1

theorem mouseMove_dragInfo (st : State) (x : ℚ) :
    (mouseMove st x).dragInfo = st.dragInfo :=
  (foldl_runListener x st.listeners st).2.1

theorem mouseMove_listeners (st : State) (x : ℚ) :
    (mouseMove st x).listeners = st.listeners :=
  (foldl_runListener x st.listeners st).2.2.1

theorem mouseMove_segments (st : State) (x : ℚ) :
    (mouseMove st x).segments = st.segments ∨
      ∃ r ∈ st.listeners, ∃ m, handleMouseMove r st.dragInfo x = some m ∧
        (mouseMove st x).segments = m :=
  (foldl_runListener x st.listeners st).2.2.2

/-- When the listener registered last calls `setSegments`, its mapping is the one the
event leaves. -/
theorem mouseMove_last {st : State} {ls : List Render} {r : Render} {x : ℚ} {m : Segments}
    (hls : st.listeners = ls ++ [r]) (hm : handleMouseMove r st.dragInfo x = some m) :
    (mouseMove st x).segments = m := by
  unfold mouseMove
  rw [hls, List.foldl_append, List.foldl_cons, List.foldl_nil]
  have hdi := (foldl_runListener x ls st).2.1
  generalize List.foldl (runListener x) st ls = s at hdi ⊢
  unfold runListener
  rw [hdi, hm]

/-- A mouse-move event with no drag in progress changes nothing. -/
theorem mouseMove_idle {st : State} (hidle : st.dragInfo.isDragging = false) (x : ℚ) :
    mouseMove st x = st := by
  have key : ∀ (ls : List Render) (s : State), s.dragInfo.isDragging = false →
      ls.foldl (runListener x) s = s := by
    intro ls
    induction ls with
    | nil => intro s _; rfl
    | cons r ls ih =>
      intro s hs
      have h1 : runListener x s r = s := by
        unfold runListener handleMouseMove tentative
        rw [if_pos hs]
      rw [List.foldl_cons, h1]
      exact ih s hs
  exact key _ _ hidle

/-- A mouse-up event clears `isDragging` and the registered listeners, when there are
any. -/
theorem foldl_handleMouseUp (ls : List Render) :
    ∀ s : State, s.listeners = ls → ls ≠ [] →
      ls.foldl handleMouseUp s
        = { s with dragInfo := { s.dragInfo with isDragging := false }, listeners := [] } := by
  induction ls with
  | nil => intro s _ h; exact absurd rfl h
  | cons r ls ih =>
    intro s hs _
    rw [List.foldl_cons]
    have h1 : handleMouseUp s r
        = { s with dragInfo := { s.dragInfo with isDragging := false }, listeners := ls } := by
      unfold handleMouseUp
      rw [hs, List.erase_cons_head]
    by_cases hls : ls = []
    · subst hls
      rw [List.foldl_nil, h1]
    · rw [ih (handleMouseUp s r) (by rw [h1]) hls, h1]

theorem mouseUp_segments (st : State) : (mouseUp st).segments = st.segments := by
  unfold mouseUp
  by_cases h : st.listeners = []
  · rw [h]; rfl
  · rw [foldl_handleMouseUp _ st rfl h]

theorem mouseUp_listeners (st : State) : (mouseUp st).listeners = [] := by
  unfold mouseUp
  by_cases h : st.listeners = []
  · rw [h]; exact h
  · rw [foldl_handleMouseUp _ st rfl h]

/-! ## Runs -/

theorem run_cons (st : State) (op : Op) (ops : List Op) :
    run st (op :: ops) = run (step st op) ops := rfl

/-- A property of states kept by every operation holds along every run. -/
theorem run_invariant (P : State → Prop) (hstep : ∀ st op, P st → P (step st op)) :
    ∀ (ops : List Op) (st : State), P st → P (run st ops) := by
  intro ops
  induction ops with
  | nil => intro st h; exact h
  | cons op ops ih => intro st h; exact ih _ (hstep st op h)

theorem step_segments_of_not_update (st : State) (op : Op) (h : ∀ x, op ≠ .updateDrag x) :
    (step st op).segments = st.segments := by
  cases op with
  | toggleLock name => rfl
  | beginDrag name x w => exact handleMouseDown_segments st x name w
  | updateDrag x => exact absurd rfl (h x)
  | endDrag => exact mouseUp_segments st

theorem allAtLeast5_spread {m : Segments} (hm : AllAtLeast5 m) (L : Finset String)
    (d : String) {nw : ℚ} (hnw : 5 ≤ nw) (adj : ℚ) :
    AllAtLeast5 (m.map (spread L d nw adj)) := by
  intro e he
  obtain ⟨e0, he0, rfl⟩ := List.mem_map.mp he
  unfold spread
  split
  · exact hnw
  · split
    · exact hm e0 he0
    · exact le_max_left _ _

theorem sound_step {st : State} (h : Sound st) (op : Op) : Sound (step st op) := by
  obtain ⟨hwf, h5, hl⟩ := h
  cases op with
  | toggleLock name => exact ⟨hwf, h5, hl⟩
  | beginDrag name x w =>
    show Sound (handleMouseDown st x name w)
    unfold handleMouseDown
    split
    · exact ⟨hwf, h5, hl⟩
    · refine ⟨hwf, h5, ?_⟩
      intro r hr
      rcases List.mem_append.mp hr with hr | hr
      · exact hl r hr
      · rw [List.mem_singleton.mp hr]
        exact ⟨hwf, h5⟩
  | updateDrag x =>
    show Sound (mouseMove st x)
    refine ⟨?_, ?_, by rw [mouseMove_listeners]; exact hl⟩
    · unfold WF
      rcases mouseMove_segments st x with h | ⟨r, hr, m, hm, h⟩
      · rw [h]; exact hwf
      · obtain ⟨d, nw, old, _, _, _, _, _, _, hmeq⟩ := handleMouseMove_some_wf (hl r hr).1 hm
        rw [h, hmeq, keys_spread]
        exact (hl r hr).1
    · rcases mouseMove_segments st x with h | ⟨r, hr, m, hm, h⟩
      · rw [h]; exact h5
      · obtain ⟨d, nw, old, _, _, hnw, _, _, _, hmeq⟩ := handleMouseMove_some_wf (hl r hr).1 hm
        rw [h, hmeq]
        exact allAtLeast5_spread (hl r hr).2 _ _ (proposedWidth_bounds hnw).1 _
  | endDrag =>
    show Sound (mouseUp st)
    refine ⟨?_, ?_, ?_⟩
    · unfold WF; rw [mouseUp_segments]; exact hwf
    · rw [mouseUp_segments]; exact h5
    · rw [mouseUp_listeners]
      intro r hr
      exact absurd hr (List.not_mem_nil r)

theorem sound_initialState : Sound initialState := by
  refine ⟨by unfold WF; decide, by unfold AllAtLeast5; decide, ?_⟩
  intro r hr
  exact absurd hr (List.not_mem_nil r)

theorem sound_run (ops : List Op) : Sound (run initialState ops) :=
  run_invariant Sound (fun _ op h => sound_step h op) ops _ sound_initialState

/-! ## Properties of the mixer -/

/-- C1. Sum invariant: after every finite sequence of `toggleLock`, `beginDrag`,
`updateDrag` and `endDrag` calls from the initial state, with arbitrary arguments, the
five percentages sum to 100 up to an error strictly below 0.1. -/
theorem sum_invariant (ops : List Op) :
    |total (run initialState ops).segments - 100| < 1 / 10 := by
  refine run_invariant (fun st => |total st.segments - 100| < 1 / 10) ?_ ops _ ?_
  · intro st op h
    cases op with
    | updateDrag x =>
      show |total (mouseMove st x).segments - 100| < 1 / 10
      rcases mouseMove_segments st x with h' | ⟨r, _, m, hm, h'⟩
      · rw [h']; exact h
      · rw [h']; exact (handleMouseMove_some hm).2
    | toggleLock name => rw [step_segments_of_not_update _ _ (by intro x; simp)]; exact h
    | beginDrag name x w => rw [step_segments_of_not_update _ _ (by intro x; simp)]; exact h
    | endDrag => rw [step_segments_of_not_update _ _ (by intro x; simp)]; exact h
  · show |total initialState.segments - 100| < 1 / 10
    rw [total_eq_sum]
    norm_num [initialState, values]

/-- C2, as stated, fails: after `squeezeRun` a drag of topic is in progress and topic
stands at 80. -/
theorem bounds_counterexample :
    (run initialState squeezeRun).dragInfo.isDragging = true ∧
    (run initialState squeezeRun).dragInfo.segmentType = some "topic" ∧
    (run initialState squeezeRun).segments
      = [("cold_open", 5), ("topic", 80), ("banter", 5), ("ad", 5), ("outro", 5)] ∧
    ¬ DraggedAtMost70 (run initialState squeezeRun) := by
  refine ⟨by decide!, by decide!, by decide!, ?_⟩
  intro h
  have h80 := h "topic" 80 (by decide!) (by decide!) (by decide!)
  norm_num at h80

/-- C2, amended. In every state reachable from the initial state no percentage is below
5, and every `updateDrag` that changes the mapping leaves the segment being dragged
between 5 and 70. -/
theorem bounds_reachable (ops : List Op) :
    AllAtLeast5 (run initialState ops).segments ∧
    ∀ x, (step (run initialState ops) (.updateDrag x)).segments
        ≠ (run initialState ops).segments →
      ∃ d v, (run initialState ops).dragInfo.isDragging = true ∧
        (run initialState ops).dragInfo.segmentType = some d ∧
        get (step (run initialState ops) (.updateDrag x)).segments d = some v ∧
        5 ≤ v ∧ v ≤ 70 := by
  obtain ⟨_, h5, hl⟩ := sound_run ops
  refine ⟨h5, ?_⟩
  intro x hne
  rcases mouseMove_segments (run initialState ops) x with h | ⟨r, hr, m, hm, h⟩
  · exact absurd h hne
  · obtain ⟨d, nw, old, hdrag, hd, hnw, hold, _, _, hmeq⟩ :=
      handleMouseMove_some_wf (hl r hr).1 hm
    refine ⟨d, nw, hdrag, hd, ?_, proposedWidth_bounds hnw⟩
    show get (mouseMove _ x).segments d = some nw
    rw [h, hmeq, get_spread, hold]
    simp [spread]

/-- Witness for the amended C2: topic dragged from 50 to 60 in the initial state. -/
theorem bounds_reachable_witness :
    ∃ d v, (run initialState [.beginDrag "topic" 0 100]).dragInfo.isDragging = true ∧
      (run initialState [.beginDrag "topic" 0 100]).dragInfo.segmentType = some d ∧
      get (step (run initialState [.beginDrag "topic" 0 100]) (.updateDrag 10)).segments d
        = some v ∧
      5 ≤ v ∧ v ≤ 70 :=
  (bounds_reachable [.beginDrag "topic" 0 100]).2 10 (by decide!)

/-- C3 at its failing inputs.  The listener registered at mouse-down keeps the lock set
of that render.  Topic locked after its drag began moves from 50 to 60 at the next
`updateDrag`; ad locked during a drag of topic moves from 10 to 7.5. -/
theorem lock_failing_input :
    "topic" ∈ (run initialState [.beginDrag "topic" 0 100, .toggleLock "topic"]).lockedSegments ∧
    get (run initialState [.beginDrag "topic" 0 100, .toggleLock "topic"]).segments "topic"
      = some 50 ∧
    get (step (run initialState [.beginDrag "topic" 0 100, .toggleLock "topic"])
      (.updateDrag 10)).segments "topic" = some 60 ∧
    "ad" ∈ (run initialState [.beginDrag "topic" 0 100, .toggleLock "ad"]).lockedSegments ∧
    get (run initialState [.beginDrag "topic" 0 100, .toggleLock "ad"]).segments "ad"
      = some 10 ∧
    get (step (run initialState [.beginDrag "topic" 0 100, .toggleLock "ad"])
      (.updateDrag 10)).segments "ad" = some (15 / 2) := by
  refine ⟨by decide!, by decide!, by decide!, by decide!, by decide!, by decide!⟩

/-- C4 at its failing input.  Ad is locked when the drag of topic begins and unlocked
during the drag.  The state then meets every premise of the claim with the four other
segments eligible (sum 100, `p = 62`, each of the four stays above 5 after `-3`), and the
claim gives 7 / 62 / 12 / 7 / 12; the registered listener still splits over the three
segments that were unlocked at mouse-down and commits 6 / 62 / 11 / 10 / 11. -/
theorem even_split_failing_input :
    (run initialState [.toggleLock "ad", .beginDrag "topic" 0 100, .toggleLock "ad"]).dragInfo
      = { isDragging := true, startX := 0, segmentType := some "topic",
          initialWidth := some 50, containerWidth := some 100 } ∧
    (run initialState [.toggleLock "ad", .beginDrag "topic" 0 100, .toggleLock "ad"]).segments
      = initialState.segments ∧
    total initialState.segments = 100 ∧
    adjustableSegments
        (run initialState
          [.toggleLock "ad", .beginDrag "topic" 0 100, .toggleLock "ad"]).render "topic"
      = ["cold_open", "banter", "ad", "outro"] ∧
    (50 + (12 - 0) / 100 * 100 : ℚ) = 62 ∧
    (∀ e ∈ eligible initialState.segments ∅ "topic", 5 ≤ e.2 - (62 - 50) / 4) ∧
    (step (run initialState [.toggleLock "ad", .beginDrag "topic" 0 100, .toggleLock "ad"])
        (.updateDrag 12)).segments
      = [("cold_open", 6), ("topic", 62), ("banter", 11), ("ad", 10), ("outro", 11)] ∧
    get (step (run initialState [.toggleLock "ad", .beginDrag "topic" 0 100, .toggleLock "ad"])
        (.updateDrag 12)).segments "ad" ≠ some (10 - (62 - 50) / 4) := by
  refine ⟨by decide!, by decide!, by decide!, by decide!, by norm_num, by decide!, by decide!,
    by decide!⟩

/-- C5 at its failing input.  The four segments other than topic are locked after the
drag of topic began: every segment other than the dragged one is in the lock set, yet the
registered listener still finds four adjustable segments and `updateDrag` commits
7.5 / 60 / 12.5 / 7.5 / 12.5. -/
theorem rejection_failing_input :
    (run initialState [.beginDrag "topic" 0 100, .toggleLock "cold_open",
        .toggleLock "banter", .toggleLock "ad", .toggleLock "outro"]).dragInfo.isDragging
      = true ∧
    (run initialState [.beginDrag "topic" 0 100, .toggleLock "cold_open",
        .toggleLock "banter", .toggleLock "ad", .toggleLock "outro"]).dragInfo.segmentType
      = some "topic" ∧
    (∀ k ∈ keys (run initialState [.beginDrag "topic" 0 100, .toggleLock "cold_open",
        .toggleLock "banter", .toggleLock "ad", .toggleLock "outro"]).segments,
      k ≠ "topic" →
      k ∈ (run initialState [.beginDrag "topic" 0 100, .toggleLock "cold_open",
        .toggleLock "banter", .toggleLock "ad", .toggleLock "outro"]).lockedSegments) ∧
    (run initialState [.beginDrag "topic" 0 100, .toggleLock "cold_open",
        .toggleLock "banter", .toggleLock "ad", .toggleLock "outro"]).segments
      = initialState.segments ∧
    (step (run initialState [.beginDrag "topic" 0 100, .toggleLock "cold_open",
        .toggleLock "banter", .toggleLock "ad", .toggleLock "outro"])
        (.updateDrag 10)).segments
      = [("cold_open", 15 / 2), ("topic", 60), ("banter", 25 / 2), ("ad", 15 / 2),
          ("outro", 25 / 2)] := by
  refine ⟨by decide!, by decide!, by decide!, by decide!, by decide!⟩

/-- C6. Dragging a locked segment is a no-op: with no drag in progress and `name` locked,
`beginDrag(name, pointerX, containerWidth)` opens no session, and `beginDrag` followed by
any number of `updateDrag` calls returns the state it started from. -/
theorem drag_locked_is_noop (st : State) (name : String) (pointerX containerWidth : ℚ)
    (xs : List ℚ) (hidle : st.dragInfo.isDragging = false)
    (hlocked : name ∈ st.lockedSegments) :
    step st (.beginDrag name pointerX containerWidth) = st ∧
      (step st (.beginDrag name pointerX containerWidth)).dragInfo.isDragging = false ∧
      run st (.beginDrag name pointerX containerWidth :: xs.map Op.updateDrag) = st := by
  have hdown : step st (.beginDrag name pointerX containerWidth) = st := by
    show handleMouseDown st pointerX name containerWidth = st
    unfold handleMouseDown
    rw [if_pos hlocked]
  refine ⟨hdown, by rw [hdown]; exact hidle, ?_⟩
  rw [run_cons, hdown]
  induction xs with
  | nil => rfl
  | cons x xs ih =>
    rw [List.map_cons, run_cons]
    show run (mouseMove st x) _ = st
    rw [mouseMove_idle hidle x]
    exact ih

/-- Witness for C6: from the initial state with topic locked, a drag of topic and three
pointer moves. -/
theorem drag_locked_is_noop_witness :
    step (step initialState (.toggleLock "topic")) (.beginDrag "topic" 0 100)
        = step initialState (.toggleLock "topic") ∧
      (step (step initialState (.toggleLock "topic"))
        (.beginDrag "topic" 0 100)).dragInfo.isDragging = false ∧
      run (step initialState (.toggleLock "topic"))
          (.beginDrag "topic" 0 100 :: [10, 20, -30].map Op.updateDrag)
        = step initialState (.toggleLock "topic") :=
  drag_locked_is_noop (step initialState (.toggleLock "topic")) "topic" 0 100 [10, 20, -30]
    (by decide) (by decide)

/-- C8. The operation `toggleLock(name)` flips the membership of `name` in the lock set
and of no other name, leaves the segment mapping and the drag session alone, and applied
twice gives a lock set with the members of the original one. -/
theorem toggleLock_flips (st : State) (name : String) :
    (name ∈ (handleDoubleClick st name).lockedSegments ↔ name ∉ st.lockedSegments) ∧
    (∀ k, k ≠ name →
      (k ∈ (handleDoubleClick st name).lockedSegments ↔ k ∈ st.lockedSegments)) ∧
    (handleDoubleClick st name).segments = st.segments ∧
    (handleDoubleClick st name).dragInfo = st.dragInfo ∧
    (∀ k, k ∈ (handleDoubleClick (handleDoubleClick st name) name).lockedSegments ↔
      k ∈ st.lockedSegments) := by
  have one : ∀ (s : State) (k : String),
      k ∈ (handleDoubleClick s name).lockedSegments ↔
        (if k = name then k ∉ s.lockedSegments else k ∈ s.lockedSegments) := by
    intro s k
    unfold handleDoubleClick
    by_cases hmem : name ∈ s.lockedSegments <;> by_cases hk : k = name
    · subst hk; simp [hmem]
    · simp [hmem, hk]
    · subst hk; simp [hmem]
    · simp [hmem, hk]
  refine ⟨?_, ?_, rfl, rfl, ?_⟩
  · rw [one]; simp
  · intro k hk; rw [one]; simp [hk]
  · intro k
    rw [one, one]
    by_cases hk : k = name <;> simp [hk]

/-- Witness for C8: locking topic in the initial state leaves the lock of ad alone. -/
theorem toggleLock_flips_witness :
    "ad" ∈ (handleDoubleClick initialState "topic").lockedSegments ↔
      "ad" ∈ initialState.lockedSegments :=
  (toggleLock_flips initialState "topic").2.1 "ad" (by decide)

/-- C9, as stated, fails.  In the drag of banter over a 1024 wide container, the move to
205 commits a mapping of total 51205/512 (cold_open and ad are clamped at 5); the move
back to 0 is recomputed from the mapping held at mouse-down and commits the initial
mapping: the committed update lowers the sum to 100 although, measured from the current
mapping, no eligible segment is clamped.  And with a container width of 0 and the pointer
at the start position the proposed width is `NaN`, so no total is computed at all. -/
theorem total_drift_counterexample :
    total (run initialState [.beginDrag "banter" 0 1024, .updateDrag 205]).segments
      = 51205 / 512 ∧
    (step (run initialState [.beginDrag "banter" 0 1024, .updateDrag 205])
        (.updateDrag 0)).segments = initialState.segments ∧
    total (step (run initialState [.beginDrag "banter" 0 1024, .updateDrag 205])
        (.updateDrag 0)).segments
      < total (run initialState [.beginDrag "banter" 0 1024, .updateDrag 205]).segments ∧
    clampExcess (run initialState [.beginDrag "banter" 0 1024, .updateDrag 205]).segments
        (run initialState [.beginDrag "banter" 0 1024, .updateDrag 205]).lockedSegments
        "banter" (-(15 - 8965 / 256) / 4) = 0 ∧
    (run initialState [.beginDrag "banter" 7 0]).dragInfo.isDragging = true ∧
    tentative (run initialState [.beginDrag "banter" 7 0]).render
      (run initialState [.beginDrag "banter" 7 0]).dragInfo 7 = none := by
  refine ⟨by decide!, by decide!, by decide!, by decide!, by decide!, by decide!⟩

/-- C9, amended.  The handler registered by `beginDrag` keeps the mapping `s0` and the
lock set of the state in which the drag began.  With a drag of `d` in progress, `d` one
of the segments, `n ≥ 1` eligible segments, and a pointer position whose proposed width
`newWidth` is a number, it builds a mapping whose total is the total of `s0` plus the sum
over the eligible segments `k` of `max(0, 5 - (s0[k] + adjustment))`, where
`adjustment = -(newWidth - s0[d]) / n`.  Hence the built total is never below the total
of `s0`, equals it if and only if no eligible segment is clamped (`s0[k] + adjustment ≥ 5`
for each), and when it passes the tolerance test it is the mapping that `updateDrag`
commits, for the handler registered last. -/
theorem total_drift (r : Render) (hwf : (keys r.segments).Nodup) (di : DragInfo) (d : String)
    (x sd newWidth adjustment : ℚ)
    (hdrag : di.isDragging = true) (hd : di.segmentType = some d)
    (hnw : proposedWidth di x = some newWidth)
    (hsd : get r.segments d = some sd)
    (hn : 1 ≤ (adjustableSegments r d).length)
    (hadj : adjustment = -(newWidth - sd) / ((adjustableSegments r d).length : ℚ)) :
    ∃ t, tentative r di x = some t ∧
      total t = total r.segments + clampExcess r.segments r.lockedSegments d adjustment ∧
      total r.segments ≤ total t ∧
      (total t = total r.segments ↔
        ∀ e ∈ eligible r.segments r.lockedSegments d, 5 ≤ e.2 + adjustment) ∧
      (|total t - 100| < 1 / 10 →
        ∀ (st : State) (ls : List Render), st.dragInfo = di → st.listeners = ls ++ [r] →
          (step st (.updateDrag x)).segments = t) := by
  have hn0 : (adjustableSegments r d).length ≠ 0 := by omega
  have hten := tentative_eq hwf hdrag hd hnw hsd hn0
  have htot := total_spread hwf newWidth hsd hn0
  rw [← hadj] at hten htot
  have hnonneg := clampExcess_nonneg r.segments r.lockedSegments d adjustment
  refine ⟨_, hten, htot, by rw [htot]; linarith, ?_, ?_⟩
  · rw [htot, ← clampExcess_eq_zero_iff]
    constructor
    · intro h; linarith
    · intro h; rw [h, add_zero]
  · intro hc st ls hdi hls
    show (mouseMove st x).segments = _
    exact mouseMove_last hls (by rw [hdi]; exact handleMouseMove_commit hten hc)

/-- Witness for the amended C9: from the initial state, banter dragged from 15 to 25.  No
eligible segment is clamped and the total stays at 100. -/
theorem total_drift_witness :
    ∃ t, tentative initialState.render
        (step initialState (.beginDrag "banter" 0 100)).dragInfo 10 = some t ∧
      total t = total initialState.render.segments
        + clampExcess initialState.render.segments initialState.render.lockedSegments
            "banter" (-5 / 2) ∧
      total initialState.render.segments ≤ total t ∧
      (total t = total initialState.render.segments ↔
        ∀ e ∈ eligible initialState.render.segments initialState.render.lockedSegments
          "banter", 5 ≤ e.2 + -5 / 2) ∧
      (|total t - 100| < 1 / 10 →
        ∀ (st : State) (ls : List Render),
          st.dragInfo = (step initialState (.beginDrag "banter" 0 100)).dragInfo →
          st.listeners = ls ++ [initialState.render] →
          (step st (.updateDrag 10)).segments = t) :=
  total_drift initialState.render (by decide)
    (step initialState (.beginDrag "banter" 0 100)).dragInfo "banter" 10 15 25 (-5 / 2)
    (by decide!) (by decide!) (by decide!) (by decide!) (by decide!) (by decide!)

/-- C10. Drag round trip: in a well-formed state (with no drag in progress, or with one:
`beginDrag` replaces it) whose mapping sums to 100 with every value at least 5, for an
unlocked segment `d` with `s[d]` in `[5, 70]` and at least one other unlocked segment,
and a pointer position `x1` whose proposal `p = s[d] + (x1 - x0) / w * 100` (container
width `w ≠ 0`) needs no clamp, neither of `d` nor of any eligible segment:
`beginDrag(d, x0, w)` then `updateDrag(x1)` commits the even split, and a further
`updateDrag(x0)` gives back exactly the mapping held at `beginDrag`. -/
theorem drag_round_trip (st : State) (hwf : WF st) (d : String) (x0 x1 w sd : ℚ)
    (hsum : total st.segments = 100) (hmin : ∀ e ∈ st.segments, 5 ≤ e.2)
    (hdl : d ∉ st.lockedSegments) (hsd : get st.segments d = some sd)
    (hsd5 : 5 ≤ sd) (hsd70 : sd ≤ 70)
    (hn : 1 ≤ (adjustableSegments st.render d).length) (hw0 : w ≠ 0)
    (hp5 : 5 ≤ sd + (x1 - x0) / w * 100) (hp70 : sd + (x1 - x0) / w * 100 ≤ 70)
    (hroom : ∀ e ∈ eligible st.segments st.lockedSegments d,
      5 ≤ e.2 - (sd + (x1 - x0) / w * 100 - sd) / ((adjustableSegments st.render d).length : ℚ)) :
    (run st [.beginDrag d x0 w, .updateDrag x1]).segments
      = st.segments.map (spread st.lockedSegments d (sd + (x1 - x0) / w * 100)
          (-(sd + (x1 - x0) / w * 100 - sd) / ((adjustableSegments st.render d).length : ℚ))) ∧
    (run st [.beginDrag d x0 w, .updateDrag x1, .updateDrag x0]).segments = st.segments := by
  have hn0 : (adjustableSegments st.render d).length ≠ 0 := by omega
  have hwfr : (keys st.render.segments).Nodup := hwf
  have hsdr : get st.render.segments d = some sd := hsd
  -- the state after `beginDrag`
  obtain ⟨s1, hs1, hdi1, hls1⟩ :
      ∃ s1, step st (.beginDrag d x0 w) = s1 ∧
        s1.dragInfo = { isDragging := true, startX := x0, segmentType := some d,
                        initialWidth := some sd, containerWidth := some w } ∧
        s1.listeners = st.listeners ++ [st.render] := by
    refine ⟨_, rfl, ?_, ?_⟩
    · show (handleMouseDown st x0 d w).dragInfo = _
      unfold handleMouseDown
      rw [if_neg hdl, hsd]
    · show (handleMouseDown st x0 d w).listeners = _
      unfold handleMouseDown
      rw [if_neg hdl]
  -- the first update
  have hnw1 : proposedWidth s1.dragInfo x1 = some (sd + (x1 - x0) / w * 100) := by
    rw [proposedWidth_eq (b := sd) (w := w) (by rw [hdi1]) (by rw [hdi1]) hw0, hdi1,
      min_eq_right hp70, max_eq_right hp5]
  have hten1 := tentative_eq hwfr (by rw [hdi1]) (by rw [hdi1]) hnw1 hsdr hn0
  have hzero1 : clampExcess st.render.segments st.render.lockedSegments d
      (-(sd + (x1 - x0) / w * 100 - sd) / ((adjustableSegments st.render d).length : ℚ))
      = 0 := by
    rw [clampExcess_eq_zero_iff]
    intro e he
    have := hroom e he
    have hneg :
        -(sd + (x1 - x0) / w * 100 - sd) / ((adjustableSegments st.render d).length : ℚ)
        = -((sd + (x1 - x0) / w * 100 - sd)
            / ((adjustableSegments st.render d).length : ℚ)) := by
      ring
    rw [hneg]
    linarith
  have hsumr : total st.render.segments = 100 := hsum
  have htot1 := total_spread hwfr (sd + (x1 - x0) / w * 100) hsdr hn0
  rw [hzero1, hsumr, add_zero] at htot1
  have hres1 := mouseMove_last hls1 (handleMouseMove_commit hten1 (by rw [htot1]; norm_num))
  -- the second update, recomputed from the mapping held at `beginDrag`
  have hdi2 : (mouseMove s1 x1).dragInfo = s1.dragInfo := mouseMove_dragInfo s1 x1
  have hls2 : (mouseMove s1 x1).listeners = st.listeners ++ [st.render] := by
    rw [mouseMove_listeners, hls1]
  have hnw2 : proposedWidth (mouseMove s1 x1).dragInfo x0 = some sd := by
    rw [hdi2, proposedWidth_eq (b := sd) (w := w) (by rw [hdi1]) (by rw [hdi1]) hw0, hdi1]
    simp only [sub_self, zero_div, zero_mul, add_zero]
    rw [min_eq_right hsd70, max_eq_right hsd5]
  have hten2 := tentative_eq hwfr (by rw [hdi2, hdi1]) (by rw [hdi2, hdi1]) hnw2 hsdr hn0
  have hback : st.render.segments.map (spread st.render.lockedSegments d sd
      (-(sd - sd) / ((adjustableSegments st.render d).length : ℚ))) = st.segments := by
    show st.segments.map _ = st.segments
    conv_rhs => rw [← List.map_id st.segments]
    apply List.map_congr_left
    intro e he
    have hge := get_of_mem_of_nodup hwf he
    obtain ⟨a, v⟩ := e
    by_cases h1 : a = d
    · subst h1
      rw [hsd] at hge
      have hv : sd = v := Option.some.inj hge
      simp [spread, hv]
    · by_cases h2 : a ∈ st.render.lockedSegments
      · simp [spread, h1, h2]
      · have h5 := hmin (a, v) he
        simp only [spread, if_neg h1, if_neg h2, id]
        rw [sub_self, neg_zero, zero_div, add_zero, max_eq_right h5]
  rw [hback] at hten2
  have hres2 := mouseMove_last hls2 (handleMouseMove_commit hten2 (by rw [hsum]; norm_num))
  constructor
  · show (mouseMove (step st (.beginDrag d x0 w)) x1).segments = _
    rw [hs1, hres1]
    rfl
  · show (mouseMove (mouseMove (step st (.beginDrag d x0 w)) x1) x0).segments = _
    rw [hs1, hres2]

/-- Witness for C10: in the initial state, banter is dragged from 15 to 25 and back. -/
theorem drag_round_trip_witness :
    (run initialState [.beginDrag "banter" 0 100, .updateDrag 10]).segments
      = initialState.segments.map (spread initialState.lockedSegments "banter"
          (15 + (10 - 0) / 100 * 100)
          (-(15 + (10 - 0) / 100 * 100 - 15)
            / ((adjustableSegments initialState.render "banter").length : ℚ))) ∧
    (run initialState [.beginDrag "banter" 0 100, .updateDrag 10, .updateDrag 0]).segments
      = initialState.segments :=
  drag_round_trip initialState (by unfold WF; decide) "banter" 0 10 100 15
    (by decide!) (by decide!) (by decide!) (by decide!) (by norm_num)
    (by norm_num) (by decide!) (by norm_num) (by norm_num) (by norm_num) (by decide!)

end RadioMixer
